import Mathlib

/-!
Verification of the rate-limited request governor of the paper-posting
service.  The Python source (utils/utilts.py) is shallowly embedded here:

* timestamps (floats from time.monotonic / time.time) become rationals;
* Python ints become Lean Int (Nat where the source value is a length);
* each deque becomes a List, oldest entry first, appended at the tail;
* `deque[0]` on an empty deque raises IndexError in Python; the embedding
  makes this outcome explicit (the `error` result of an acquire iteration);
* `acquire`'s unbounded while-loop is driven by an explicit schedule of
  clock readings, one (monotonic, wall) pair per iteration, matching the
  fresh `time.monotonic()` / `time.time()` calls at the top of each pass;
* every critical section of the source runs under `self.lock`, so any
  concurrent execution is equivalent to some sequence of atomic
  check-then-record iterations; concurrency claims are therefore settled
  over arbitrary sequences of such iterations.
-/

/-- State of `RateLimiter` from utils/utilts.py: the three configured limits
and the three sliding windows (deques embedded as oldest-first lists). -/
structure RateLimiter where
  per_minute_requests : Int
  per_minute_tokens : Int
  per_day_requests : Int
  minute_requests : List ℚ
  day_requests : List ℚ
  minute_tokens : List (ℚ × Int)
deriving Repr, DecidableEq

/-- `RateLimiter.__init__`: the three limits with all windows empty. -/
def RateLimiter.mk0 (pmr pmt pdr : Int) : RateLimiter :=
  ⟨pmr, pmt, pdr, [], [], []⟩

/-- `RateLimiter._prune`: each window pops from the head while the head is at
or below `now - duration` (60 s on the monotonic clock for the minute
windows, 86400 s on the wall clock for the day window).  The head-only while
loop is exactly `List.dropWhile`. -/
def RateLimiter.prune (rl : RateLimiter) (now_monotonic now_wall : ℚ) :
    RateLimiter :=
  { rl with
    minute_requests :=
      rl.minute_requests.dropWhile (fun t => decide (t ≤ now_monotonic - 60))
    minute_tokens :=
      rl.minute_tokens.dropWhile (fun e => decide (e.1 ≤ now_monotonic - 60))
    day_requests :=
      rl.day_requests.dropWhile (fun t => decide (t ≤ now_wall - 86400)) }

/-- `sum(token for _, token in self.minute_tokens)`. -/
def RateLimiter.minuteTokenUsage (rl : RateLimiter) : Int :=
  (rl.minute_tokens.map Prod.snd).sum

/-- The normalization at the top of `acquire`:
`if tokens_needed <= 0: tokens_needed = 1`. -/
def normTokens (t : Int) : Int :=
  if t ≤ 0 then 1 else t

/-- Python's `max(xs, default=d)`: the default is used only when the list is
empty; otherwise it is the genuine maximum of the elements (the default does
not participate). -/
def pymax (d : ℚ) : List ℚ → ℚ
  | [] => d
  | x :: xs => xs.foldl max x

/-- Result of one pass of `acquire`'s while-loop body (one critical
section).  `error` is Python's IndexError from `deque[0]` on an empty deque;
it carries the state left behind (the windows were already pruned in place
before the failing subscript). -/
inductive AcquireStep where
  | admitted (rl : RateLimiter)
  | denied (rl : RateLimiter)
  | sleep (d : ℚ) (rl : RateLimiter)
  | error (rl : RateLimiter)
deriving Repr, DecidableEq

/-- One pass of the while-loop body of `RateLimiter.acquire`, with
`tokens_needed` already normalized (the source normalizes once, before the
loop).  Faithful to the source order: prune, snapshot, the three headroom
checks, record-and-return on admission; otherwise build `wait_times`
(the minute-request branch subscripts `minute_requests[0]` unguarded, the
token branch is guarded by `and self.minute_tokens`), then the daily check
(which subscripts `day_requests[0]` unguarded) returns False, else sleep
`max(max(wait_times, default=1.0), 0.5)`. -/
def RateLimiter.acquireIter (rl : RateLimiter) (tokens_needed : Int)
    (now_monotonic now_wall : ℚ) : AcquireStep :=
  if ((rl.prune now_monotonic now_wall).minute_requests.length : Int) <
        rl.per_minute_requests ∧
      (rl.prune now_monotonic now_wall).minuteTokenUsage + tokens_needed ≤
        rl.per_minute_tokens ∧
      ((rl.prune now_monotonic now_wall).day_requests.length : Int) <
        rl.per_day_requests then
    .admitted { rl.prune now_monotonic now_wall with
      minute_requests :=
        (rl.prune now_monotonic now_wall).minute_requests ++ [now_monotonic]
      day_requests :=
        (rl.prune now_monotonic now_wall).day_requests ++ [now_wall]
      minute_tokens :=
        (rl.prune now_monotonic now_wall).minute_tokens ++
          [(now_monotonic, tokens_needed)] }
  else if ¬ ((rl.prune now_monotonic now_wall).minute_requests.length : Int) <
        rl.per_minute_requests ∧
      (rl.prune now_monotonic now_wall).minute_requests = [] then
    .error (rl.prune now_monotonic now_wall)
  else if ((rl.prune now_monotonic now_wall).day_requests.length : Int) <
        rl.per_day_requests then
    .sleep
      (max (pymax 1 (
        (if ((rl.prune now_monotonic now_wall).minute_requests.length : Int) <
              rl.per_minute_requests then []
         else
           match (rl.prune now_monotonic now_wall).minute_requests with
           | [] => []
           | t :: _ => [60 - (now_monotonic - t)]) ++
        (if (rl.prune now_monotonic now_wall).minuteTokenUsage +
              tokens_needed ≤ rl.per_minute_tokens then []
         else
           match (rl.prune now_monotonic now_wall).minute_tokens with
           | [] => []
           | e :: _ => [60 - (now_monotonic - e.1)]))) (1 / 2))
      (rl.prune now_monotonic now_wall)
  else
    match (rl.prune now_monotonic now_wall).day_requests with
    | [] => .error (rl.prune now_monotonic now_wall)
    | _ :: _ => .denied (rl.prune now_monotonic now_wall)

/-- Overall outcome of an `acquire` call driven by a finite schedule of
clock readings: admission (`return True`), daily denial (`return False`),
IndexError propagation, or `pending` when the schedule ran out while the
call was still sleeping and re-checking. -/
inductive AcquireOutcome where
  | admitted (rl : RateLimiter)
  | denied (rl : RateLimiter)
  | error (rl : RateLimiter)
  | pending (rl : RateLimiter)
deriving Repr, DecidableEq

/-- The while-loop of `acquire`: one iteration per scheduled
(monotonic, wall) clock reading; a sleeping iteration continues with the
next reading. -/
def acquireGo (tokens_needed : Int) :
    RateLimiter → List (ℚ × ℚ) → AcquireOutcome
  | rl, [] => .pending rl
  | rl, (nm, nw) :: rest =>
    match rl.acquireIter tokens_needed nm nw with
    | .admitted s => .admitted s
    | .denied s => .denied s
    | .error s => .error s
    | .sleep _ s => acquireGo tokens_needed s rest

/-- `RateLimiter.acquire`: normalize the token estimate once, then loop. -/
def RateLimiter.acquire (rl : RateLimiter) (tokens_needed : Int)
    (schedule : List (ℚ × ℚ)) : AcquireOutcome :=
  acquireGo (normTokens tokens_needed) rl schedule

/-- `RateLimiter.record_additional_tokens`: no-op for non-positive input;
otherwise append `(now, tokens)` to the token window and prune. -/
def RateLimiter.record_additional_tokens (rl : RateLimiter) (tokens : Int)
    (now_monotonic now_wall : ℚ) : RateLimiter :=
  if tokens ≤ 0 then rl
  else
    ({ rl with
        minute_tokens := rl.minute_tokens ++ [(now_monotonic, tokens)]
     }).prune now_monotonic now_wall

/-- `estimate_tokens(*texts)`: sum the lengths of the truthy fragments
(`None` and the empty string are falsy), divide by 4, floor at 1. -/
def estimate_tokens (texts : List (Option String)) : Nat :=
  let total_chars :=
    ((texts.filterMap id).filter (fun s => decide (s ≠ ""))
      |>.map String.length).sum
  max (total_chars / 4) 1

/-- The token-estimator formula in the spec's words: the sum of the lengths
of the present (non-None, non-empty) fragments, integer-divided by 4,
floored at a minimum of 1. -/
def estimateTokensSpec (texts : List (Option String)) : Nat :=
  max
    ((texts.map (fun o =>
      match o with
      | none => 0
      | some s => if s = "" then 0 else s.length)).sum / 4)
    1

/-- Observable outcome of running the `retry_on_error` wrapper: the value
returned to the caller (`none` is Python's `return None` after exhaustion),
the number of invocations of the wrapped function, and the total time spent
in `time.sleep(delay)`. -/
structure RetryRun (A : Type) where
  result : Option A
  calls : Nat
  slept : Nat
deriving Repr, DecidableEq

/-- The `for attempt in range(1, retries + 1)` loop of the wrapper, over the
remaining attempt indices.  The wrapped call at attempt `i` is modelled as
`f i` (`none` = a caught `ResourceExhausted`/`GoogleAPIError`).  A failure
sleeps `delay` even on the last attempt, as in the source. -/
def retryList {A : Type} (f : Nat → Option A) (delay : Nat) :
    List Nat → RetryRun A
  | [] => ⟨none, 0, 0⟩
  | i :: rest =>
    match f i with
    | some v => ⟨some v, 1, 0⟩
    | none =>
      let r := retryList f delay rest
      ⟨r.result, r.calls + 1, r.slept + delay⟩

/-- `retry_on_error(retries, delay)` applied to a wrapped call `f`
(defaults: retries = 3, delay = 5). -/
def retry_on_error {A : Type} (retries delay : Nat) (f : Nat → Option A) :
    RetryRun A :=
  retryList f delay (List.range' 1 retries)

/-- An admission recorded by `acquire`: the two clock readings of the
admitting iteration and the normalized token cost charged. -/
structure Admission where
  nm : ℚ
  nw : ℚ
  cost : Int
deriving Repr, DecidableEq

/-- Run a sequence of atomic acquire iterations (each one critical section
of some `acquire` call, with its raw token estimate and its two clock
readings) against the ledger, returning the final state and the list of
admissions in order.  Since every iteration of the source holds
`self.lock`, every concurrent execution of `acquire` calls is equivalent to
such a sequence. -/
def runAcquires : RateLimiter → List (Int × ℚ × ℚ) →
    RateLimiter × List Admission
  | rl, [] => (rl, [])
  | rl, (t, nm, nw) :: rest =>
    match rl.acquireIter (normTokens t) nm nw with
    | .admitted s =>
      ((runAcquires s rest).1, ⟨nm, nw, normTokens t⟩ :: (runAcquires s rest).2)
    | .denied s => runAcquires s rest
    | .sleep _ s => runAcquires s rest
    | .error s => runAcquires s rest

/-- Claim C2's property, stated verbatim over an arbitrary ledger state:
after pruning at (now_monotonic, now_wall), every remaining minute-window
entry is within 60 s of now_monotonic, every remaining day entry within
86400 s of now_wall, and every removed entry was strictly outside its
window's duration. -/
def pruneClaim (rl : RateLimiter) (nm nw : ℚ) : Prop :=
  (∀ t ∈ (rl.prune nm nw).minute_requests, nm - t ≤ 60) ∧
  (∀ e ∈ (rl.prune nm nw).minute_tokens, nm - e.1 ≤ 60) ∧
  (∀ t ∈ (rl.prune nm nw).day_requests, nw - t ≤ 86400) ∧
  (∀ t ∈ rl.minute_requests.takeWhile (fun t => decide (t ≤ nm - 60)),
    60 < nm - t) ∧
  (∀ e ∈ rl.minute_tokens.takeWhile (fun e => decide (e.1 ≤ nm - 60)),
    60 < nm - e.1) ∧
  (∀ t ∈ rl.day_requests.takeWhile (fun t => decide (t ≤ nw - 86400)),
    86400 < nw - t)

/-- An acquire iteration that admits. -/
def isAdmittedStep (s : AcquireStep) : Prop :=
  ∃ rl, s = AcquireStep.admitted rl

/-- The wait amounts named by the spec for claim C5: for each failing
minute-level check, `60 − (now − oldest_entry_timestamp)` for the
corresponding (post-prune) window's oldest entry. -/
def specWaits (r : RateLimiter) (tokens_needed : Int) (nm : ℚ) : List ℚ :=
  (if (r.minute_requests.length : Int) < r.per_minute_requests then []
   else [60 - (nm - r.minute_requests.headI)]) ++
  (if r.minuteTokenUsage + tokens_needed ≤ r.per_minute_tokens then []
   else [60 - (nm - r.minute_tokens.headI.1)])

/-- Invariant for claim C1, tying a ledger state to the full history `A` of
admissions so far.  `tm` (monotonic) and `tw` (wall) bound the clock
readings seen so far.  Each window is the history's timestamp list minus a
pruned prefix whose entries had already aged out of the window, and the
three sliding-span bounds hold of the history itself (spans are read
half-open: `(a, a + duration]`). -/
structure LedgerInv (pmr pmt pdr : Int) (rl : RateLimiter)
    (A : List Admission) (tm tw : ℚ) : Prop where
  lim_mr : rl.per_minute_requests = pmr
  lim_tok : rl.per_minute_tokens = pmt
  lim_day : rl.per_day_requests = pdr
  hist_nm_le : ∀ e ∈ A, e.nm ≤ tm
  hist_nw_le : ∀ e ∈ A, e.nw ≤ tw
  hist_cost : ∀ e ∈ A, 1 ≤ e.cost
  sorted_nm : List.Pairwise (fun a b => a ≤ b) (A.map Admission.nm)
  sorted_nw : List.Pairwise (fun a b => a ≤ b) (A.map Admission.nw)
  win_mr : ∃ P, A.map Admission.nm = P ++ rl.minute_requests ∧
    ∀ x ∈ P, x ≤ tm - 60
  win_tok : ∃ P, A.map (fun e => (e.nm, e.cost)) = P ++ rl.minute_tokens ∧
    ∀ x ∈ P, x.1 ≤ tm - 60
  win_day : ∃ P, A.map Admission.nw = P ++ rl.day_requests ∧
    ∀ x ∈ P, x ≤ tw - 86400
  bound_mr : ∀ a : ℚ,
    (A.countP (fun e => decide (a < e.nm ∧ e.nm ≤ a + 60)) : Int) ≤ pmr
  bound_tok : ∀ a : ℚ,
    ((A.filter (fun e => decide (a < e.nm ∧ e.nm ≤ a + 60))).map
      Admission.cost).sum ≤ pmt
  bound_day : ∀ a : ℚ,
    (A.countP (fun e => decide (a < e.nw ∧ e.nw ≤ a + 86400)) : Int) ≤ pdr

/-! ## General helper lemmas -/

/-- Appending an element the predicate rejects commutes with `dropWhile`. -/
theorem dropWhile_append_single {α : Type} (p : α → Bool) (l : List α)
    (x : α) (hx : p x = false) :
    List.dropWhile p (l ++ [x]) = List.dropWhile p l ++ [x] := by
  rw [List.dropWhile_append]
  by_cases h : (List.dropWhile p l).isEmpty
  · rw [if_pos h, List.dropWhile_cons, hx]
    simp only [List.isEmpty_iff] at h
    rw [h]
    simp
  · rw [if_neg h]

/-- In a list sorted (non-decreasing) under a key, every survivor of a
head-only prune by threshold `c` has key strictly above `c`. -/
theorem mem_dropWhile_key_gt {α : Type} (f : α → ℚ) (c : ℚ) :
    ∀ l : List α, List.Pairwise (fun a b => f a ≤ f b) l →
      ∀ x ∈ l.dropWhile (fun a => decide (f a ≤ c)), c < f x := by
  intro l
  induction l with
  | nil => intro _ x hx; simp [List.dropWhile] at hx
  | cons a l ih =>
    intro hs x hx
    rw [List.pairwise_cons] at hs
    rw [List.dropWhile_cons] at hx
    by_cases ha : f a ≤ c
    · rw [if_pos (by simpa using ha)] at hx
      exact ih hs.2 x hx
    · rw [if_neg (by simpa using ha)] at hx
      push_neg at ha
      rw [List.mem_cons] at hx
      rcases hx with hx | hx
      · exact hx ▸ ha
      · exact lt_of_lt_of_le ha (hs.1 x hx)

/-- Normalized token estimates are at least 1. -/
theorem one_le_normTokens (t : Int) : 1 ≤ normTokens t := by
  unfold normTokens
  split <;> omega

/-- `pymax` over a non-empty list ignores the default. -/
theorem pymax_cons (d d' : ℚ) (x : ℚ) (xs : List ℚ) :
    pymax d (x :: xs) = pymax d' (x :: xs) := rfl

/-! ## C8: the token estimator -/

/-- The character totals of the source estimator and of the spec's formula
agree fragment by fragment. -/
theorem estimate_chars_eq (texts : List (Option String)) :
    (((texts.filterMap id).filter (fun s => decide (s ≠ ""))).map
        String.length).sum =
      (texts.map (fun o =>
        match o with
        | none => 0
        | some s => if s = "" then 0 else s.length)).sum := by
  induction texts with
  | nil => rfl
  | cons o rest ih =>
    cases o with
    | none => simpa using ih
    | some s =>
      by_cases hs : s = ""
      · subst hs
        simpa using ih
      · simpa [List.filterMap_cons, List.filter_cons, hs] using ih

/-- C8: `estimate_tokens` returns the summed lengths of the present
(non-None, non-empty) fragments integer-divided by 4 and floored at 1; in
particular it returns 1 on an empty or all-None input and 10 on a single
40-character string. -/
theorem c8_estimate_tokens (texts : List (Option String)) :
    estimate_tokens texts = estimateTokensSpec texts ∧
    estimate_tokens [] = 1 ∧
    estimate_tokens [none, none] = 1 ∧
    estimate_tokens [some "aaaaaaaaaaaaaaaaaaaaaaaaaaaaaaaaaaaaaaaa"] = 10 := by
  refine ⟨?_, rfl, rfl, rfl⟩
  unfold estimate_tokens estimateTokensSpec
  rw [estimate_chars_eq]

/-! ## C4: the retry wrapper -/

/-- A run of the attempt loop in which every attempt fails makes one call
and one full sleep per listed attempt and yields no result. -/
theorem retryList_all_fail {A : Type} (f : Nat → Option A) (delay : Nat) :
    ∀ l : List Nat, (∀ i ∈ l, f i = none) →
      retryList f delay l = ⟨none, l.length, l.length * delay⟩ := by
  intro l
  induction l with
  | nil => intro _; simp [retryList]
  | cons i rest ih =>
    intro h
    have hi : f i = none := h i (by simp)
    unfold retryList
    rw [hi, ih (fun j hj => h j (by simp [hj]))]
    simp [List.length_cons, Nat.succ_mul]

/-- C4: a wrapped operation that fails on every invocation is invoked
exactly `retries` times, with the wrapper yielding no result (absence, not
an exception); one that fails once then succeeds yields the success value
after exactly one retry delay (two invocations). -/
theorem c4_retry_wrapper {A : Type} (retries delay : Nat)
    (f g : Nat → Option A) (v : A) :
    ((∀ i, f i = none) →
      retry_on_error retries delay f = ⟨none, retries, retries * delay⟩) ∧
    (g 1 = none → g 2 = some v → 2 ≤ retries →
      retry_on_error retries delay g = ⟨some v, 2, delay⟩) := by
  constructor
  · intro hf
    unfold retry_on_error
    rw [retryList_all_fail f delay _ (fun i _ => hf i)]
    simp [List.length_range']
  · intro h1 h2 hr
    obtain ⟨k, rfl⟩ : ∃ k, retries = k + 2 := ⟨retries - 2, by omega⟩
    unfold retry_on_error
    show retryList g delay (List.range' 1 (k + 2)) = _
    rw [show List.range' 1 (k + 2) = 1 :: 2 :: List.range' 3 k from rfl]
    unfold retryList
    rw [h1]
    unfold retryList
    rw [h2]
    simp

/-- Witness for C4 at the wrapper's defaults (3 attempts, 5-second
delay). -/
theorem c4_retry_wrapper_witness :
    retry_on_error 3 5 (fun _ => (none : Option Nat)) = ⟨none, 3, 3 * 5⟩ ∧
    retry_on_error 3 5 (fun i => if i = 1 then none else some 7) =
      ⟨some 7, 2, 5⟩ :=
  ⟨(c4_retry_wrapper 3 5 (fun _ => (none : Option Nat))
      (fun _ => (none : Option Nat)) 0).1 (fun _ => rfl),
   (c4_retry_wrapper 3 5 (fun _ => (none : Option Nat))
      (fun i => if i = 1 then none else some 7) 7).2 rfl rfl (by omega)⟩

/-! ## Characterizing one acquire iteration -/

/-- Pruning leaves the configured limits unchanged. -/
theorem prune_per_minute_requests (rl : RateLimiter) (nm nw : ℚ) :
    (rl.prune nm nw).per_minute_requests = rl.per_minute_requests := rfl

/-- Pruning leaves the configured limits unchanged. -/
theorem prune_per_minute_tokens (rl : RateLimiter) (nm nw : ℚ) :
    (rl.prune nm nw).per_minute_tokens = rl.per_minute_tokens := rfl

/-- Pruning leaves the configured limits unchanged. -/
theorem prune_per_day_requests (rl : RateLimiter) (nm nw : ℚ) :
    (rl.prune nm nw).per_day_requests = rl.per_day_requests := rfl

/-- An acquire iteration admits exactly when, after pruning, all three
headroom checks pass, and then it appends the current readings to the three
windows. -/
theorem acquireIter_eq_admitted_iff (rl : RateLimiter) (tok : Int)
    (nm nw : ℚ) (s : RateLimiter) :
    rl.acquireIter tok nm nw = .admitted s ↔
      ((((rl.prune nm nw).minute_requests.length : Int) <
          rl.per_minute_requests ∧
        (rl.prune nm nw).minuteTokenUsage + tok ≤ rl.per_minute_tokens ∧
        ((rl.prune nm nw).day_requests.length : Int) < rl.per_day_requests) ∧
      s = { rl.prune nm nw with
            minute_requests := (rl.prune nm nw).minute_requests ++ [nm]
            day_requests := (rl.prune nm nw).day_requests ++ [nw]
            minute_tokens := (rl.prune nm nw).minute_tokens ++ [(nm, tok)] }) := by
  unfold RateLimiter.acquireIter
  split_ifs with h1 h2 h3
  · simp only [AcquireStep.admitted.injEq]
    exact ⟨fun h => ⟨h1, h.symm⟩, fun h => h.2.symm⟩
  · constructor
    · intro h
      simp at h
    · intro h
      exact absurd h.1 h1
  · constructor
    · intro h
      simp at h
    · intro h
      exact absurd h.1 h1
  · constructor
    · intro h
      exfalso
      rcases hD : (rl.prune nm nw).day_requests with _ | ⟨y, ys⟩ <;>
        rw [hD] at h <;> simp at h
    · intro h
      exact absurd h.1 h1

/-- A non-admitting acquire iteration leaves exactly the pruned state
behind (it records nothing). -/
theorem acquireIter_carried_state (rl : RateLimiter) (tok : Int)
    (nm nw : ℚ) (s : RateLimiter) :
    (∀ d, rl.acquireIter tok nm nw = .sleep d s → s = rl.prune nm nw) ∧
    (rl.acquireIter tok nm nw = .denied s → s = rl.prune nm nw) ∧
    (rl.acquireIter tok nm nw = .error s → s = rl.prune nm nw) := by
  unfold RateLimiter.acquireIter
  split_ifs <;>
    refine ⟨fun d h => ?_, fun h => ?_, fun h => ?_⟩ <;>
    first
      | (simp only [AcquireStep.sleep.injEq] at h
         exact h.2.symm)
      | (simp only [AcquireStep.denied.injEq] at h
         exact h.symm)
      | (simp only [AcquireStep.error.injEq] at h
         exact h.symm)
      | (rcases hD : (rl.prune nm nw).day_requests with _ | ⟨y, ys⟩ <;>
          rw [hD] at h <;>
          first
            | (simp only [AcquireStep.denied.injEq] at h
               exact h.symm)
            | (simp only [AcquireStep.error.injEq] at h
               exact h.symm)
            | simp at h)
      | simp at h

/-! ## C7: the minimum token floor -/

/-- C7: `acquire(0)` and `acquire(-5)` behave identically to `acquire(1)`
(same decision at every step of any schedule), and an admission under the
floor records a token cost of exactly 1. -/
theorem c7_minimum_token_floor (rl : RateLimiter) (sched : List (ℚ × ℚ))
    (nm nw : ℚ) :
    rl.acquire 0 sched = rl.acquire 1 sched ∧
    rl.acquire (-5) sched = rl.acquire 1 sched ∧
    (∀ s, rl.acquireIter (normTokens 0) nm nw = .admitted s →
      s.minute_tokens.getLast? = some (nm, 1)) := by
  refine ⟨rfl, rfl, fun s h => ?_⟩
  rw [acquireIter_eq_admitted_iff] at h
  rw [h.2]
  exact List.getLast?_concat _

/-- Witness for C7 on a fresh limiter with limits (1, 5, 1). -/
theorem c7_minimum_token_floor_witness :
    (RateLimiter.mk0 1 5 1).acquire 0 [(2, 3)] =
      (RateLimiter.mk0 1 5 1).acquire 1 [(2, 3)] ∧
    (⟨1, 5, 1, [2], [3], [(2, 1)]⟩ : RateLimiter).minute_tokens.getLast? =
      some (2, 1) :=
  ⟨(c7_minimum_token_floor (RateLimiter.mk0 1 5 1) [(2, 3)] 2 3).1,
   (c7_minimum_token_floor (RateLimiter.mk0 1 5 1) [(2, 3)] 2 3).2.2
     ⟨1, 5, 1, [2], [3], [(2, 1)]⟩
     (by unfold RateLimiter.acquireIter RateLimiter.prune
            RateLimiter.minuteTokenUsage normTokens
         norm_num [List.dropWhile, RateLimiter.mk0])⟩

/-! ## C9: the post-call cost reporter -/

/-- C9: `record_additional_tokens` is a no-op for non-positive input; for
positive input it appends exactly one `(now, tokens)` entry to the (pruned)
minute-token window, while the minute-request and day-request windows can
only lose a prefix of expired entries (they are suffixes of their former
selves; nothing is appended to them). -/
theorem c9_record_frame (rl : RateLimiter) (t : Int) (nm nw : ℚ) :
    (t ≤ 0 → rl.record_additional_tokens t nm nw = rl) ∧
    (0 < t →
      (rl.record_additional_tokens t nm nw).minute_tokens =
        rl.minute_tokens.dropWhile (fun e => decide (e.1 ≤ nm - 60)) ++
          [(nm, t)] ∧
      List.IsSuffix (rl.record_additional_tokens t nm nw).minute_requests
        rl.minute_requests ∧
      List.IsSuffix (rl.record_additional_tokens t nm nw).day_requests
        rl.day_requests) := by
  constructor
  · intro ht
    unfold RateLimiter.record_additional_tokens
    rw [if_pos ht]
  · intro ht
    unfold RateLimiter.record_additional_tokens
    rw [if_neg (by omega)]
    unfold RateLimiter.prune
    refine ⟨?_, List.dropWhile_suffix _, List.dropWhile_suffix _⟩
    exact dropWhile_append_single _ _ _ (by simp)

/-- Witness for C9 at `t = -1` and `t = 2` on a concrete ledger. -/
theorem c9_record_frame_witness :
    ((⟨1, 5, 1, [0], [0], [(0, 1)]⟩ : RateLimiter).record_additional_tokens
        (-1) 61 61 = ⟨1, 5, 1, [0], [0], [(0, 1)]⟩) ∧
    ((⟨1, 5, 1, [0], [0], [(0, 1)]⟩ : RateLimiter).record_additional_tokens
        2 61 61).minute_tokens =
      ([(0, 1)] : List (ℚ × Int)).dropWhile (fun e => decide (e.1 ≤ 61 - 60)) ++
        [(61, 2)] ∧
    List.IsSuffix ((⟨1, 5, 1, [0], [0], [(0, 1)]⟩ :
        RateLimiter).record_additional_tokens 2 61 61).minute_requests [0] ∧
    List.IsSuffix ((⟨1, 5, 1, [0], [0], [(0, 1)]⟩ :
        RateLimiter).record_additional_tokens 2 61 61).day_requests [0] :=
  ⟨(c9_record_frame ⟨1, 5, 1, [0], [0], [(0, 1)]⟩ (-1) 61 61).1 (by norm_num),
   ((c9_record_frame ⟨1, 5, 1, [0], [0], [(0, 1)]⟩ 2 61 61).2 (by norm_num)).1,
   ((c9_record_frame ⟨1, 5, 1, [0], [0], [(0, 1)]⟩ 2 61 61).2 (by norm_num)).2.1,
   ((c9_record_frame ⟨1, 5, 1, [0], [0], [(0, 1)]⟩ 2 61 61).2 (by norm_num)).2.2⟩

/-! ## C2: pruning -/

/-- Counterexample for C2 as stated.  At the unsorted ledger state with
minute window `[40, 100, 0]` and `now = 100`, pruning removes the entry aged
exactly 60 s (which is not strictly outside the window) and, because the
head-only loop stops at 100, the stale entry 0 (aged 100 s) survives. -/
theorem c2_prune_counterexample :
    ¬ pruneClaim ⟨1, 1, 1, [40, 100, 0], [], []⟩ 100 100 := by
  intro h
  have h0 := h.1 0 (by norm_num [RateLimiter.prune, List.dropWhile])
  norm_num at h0

/-- C2 (amended): for ledger states whose windows are sorted oldest-first
(all reachable states are), after pruning every surviving minute entry is
aged strictly under 60 s on the monotonic clock, every surviving day entry
strictly under 86400 s on the wall clock, and every removed entry was aged
at least its window's duration (the boundary age, exactly 60 s / 86400 s,
is removed too). -/
theorem c2_prune_amended (rl : RateLimiter) (nm nw : ℚ)
    (h1 : List.Pairwise (fun a b => a ≤ b) rl.minute_requests)
    (h2 : List.Pairwise (fun a b => a.1 ≤ b.1) rl.minute_tokens)
    (h3 : List.Pairwise (fun a b => a ≤ b) rl.day_requests) :
    (∀ t ∈ (rl.prune nm nw).minute_requests, nm - t < 60) ∧
    (∀ e ∈ (rl.prune nm nw).minute_tokens, nm - e.1 < 60) ∧
    (∀ t ∈ (rl.prune nm nw).day_requests, nw - t < 86400) ∧
    (∀ t ∈ rl.minute_requests.takeWhile (fun t => decide (t ≤ nm - 60)),
      60 ≤ nm - t) ∧
    (∀ e ∈ rl.minute_tokens.takeWhile (fun e => decide (e.1 ≤ nm - 60)),
      60 ≤ nm - e.1) ∧
    (∀ t ∈ rl.day_requests.takeWhile (fun t => decide (t ≤ nw - 86400)),
      86400 ≤ nw - t) := by
  refine ⟨fun t ht => ?_, fun e he => ?_, fun t ht => ?_,
    fun t ht => ?_, fun e he => ?_, fun t ht => ?_⟩
  · have := mem_dropWhile_key_gt (fun x : ℚ => x) (nm - 60)
      rl.minute_requests h1 t ht
    linarith
  · have := mem_dropWhile_key_gt (fun x : ℚ × Int => x.1) (nm - 60)
      rl.minute_tokens h2 e he
    linarith
  · have := mem_dropWhile_key_gt (fun x : ℚ => x) (nw - 86400)
      rl.day_requests h3 t ht
    linarith
  · have h4 := List.mem_takeWhile_imp ht
    simp only [decide_eq_true_eq] at h4
    linarith
  · have h5 := List.mem_takeWhile_imp he
    simp only [decide_eq_true_eq] at h5
    linarith
  · have h6 := List.mem_takeWhile_imp ht
    simp only [decide_eq_true_eq] at h6
    linarith

/-- Witness for the amended C2 on a sorted ledger at
`now_monotonic = 100`, `now_wall = 90000`. -/
theorem c2_prune_amended_witness :
    (∀ t ∈ ((⟨1, 1, 1, [0, 30, 90], [0], [(0, 1), (90, 2)]⟩ :
        RateLimiter).prune 100 90000).minute_requests, (100 : ℚ) - t < 60) ∧
    (∀ e ∈ ((⟨1, 1, 1, [0, 30, 90], [0], [(0, 1), (90, 2)]⟩ :
        RateLimiter).prune 100 90000).minute_tokens, (100 : ℚ) - e.1 < 60) ∧
    (∀ t ∈ ((⟨1, 1, 1, [0, 30, 90], [0], [(0, 1), (90, 2)]⟩ :
        RateLimiter).prune 100 90000).day_requests,
      (90000 : ℚ) - t < 86400) ∧
    (∀ t ∈ ([0, 30, 90] : List ℚ).takeWhile
        (fun t => decide (t ≤ (100 : ℚ) - 60)), 60 ≤ (100 : ℚ) - t) ∧
    (∀ e ∈ ([(0, 1), (90, 2)] : List (ℚ × Int)).takeWhile
        (fun e => decide (e.1 ≤ (100 : ℚ) - 60)), 60 ≤ (100 : ℚ) - e.1) ∧
    (∀ t ∈ ([0] : List ℚ).takeWhile
        (fun t => decide (t ≤ (90000 : ℚ) - 86400)),
      86400 ≤ (90000 : ℚ) - t) :=
  c2_prune_amended ⟨1, 1, 1, [0, 30, 90], [0], [(0, 1), (90, 2)]⟩ 100 90000
    (by norm_num [List.pairwise_cons])
    (by norm_num [List.pairwise_cons])
    (by norm_num [List.pairwise_cons])

/-! ## C3: daily denial -/

/-- Counterexample for C3 as stated.  With `per_day_requests = 0` the day
window (empty) is already at the limit, yet `acquire` does not return False:
the daily-denial branch subscripts `self.day_requests[0]` on an empty deque
and raises IndexError. -/
theorem c3_daily_denial_counterexample :
    ¬ (((RateLimiter.mk0 1 5 0).prune 0 0).day_requests.length : Int) <
        (RateLimiter.mk0 1 5 0).per_day_requests ∧
    (∀ s, (RateLimiter.mk0 1 5 0).acquire 1 [(0, 0)] ≠
      AcquireOutcome.denied s) ∧
    (RateLimiter.mk0 1 5 0).acquire 1 [(0, 0)] =
      .error (RateLimiter.mk0 1 5 0) := by
  refine ⟨by decide, fun s h => ?_, rfl⟩
  rw [show (RateLimiter.mk0 1 5 0).acquire 1 [(0, 0)] =
      .error (RateLimiter.mk0 1 5 0) from rfl] at h
  exact AcquireOutcome.noConfusion h

/-- C3 (amended): provided the per-minute and per-day request limits are at
least 1 (so that the windows the denial path subscripts are non-empty),
whenever the pruned day window is at or above `per_day_requests` the
iteration returns False at once, with no sleep and nothing recorded (the
state is exactly the pruned one), whatever the minute-level checks say; the
whole `acquire` call stops there with False. -/
theorem c3_daily_denial_amended (rl : RateLimiter) (t : Int) (nm nw : ℚ)
    (hpm : 1 ≤ rl.per_minute_requests) (hpd : 1 ≤ rl.per_day_requests)
    (hfull : ¬ (((rl.prune nm nw).day_requests.length : Int) <
      rl.per_day_requests)) :
    rl.acquireIter t nm nw = .denied (rl.prune nm nw) ∧
    ∀ rest, rl.acquire t ((nm, nw) :: rest) =
      AcquireOutcome.denied (rl.prune nm nw) := by
  have key : ∀ tok : Int,
      rl.acquireIter tok nm nw = .denied (rl.prune nm nw) := by
    intro tok
    have hA : ¬ (((rl.prune nm nw).minute_requests.length : Int) <
        rl.per_minute_requests ∧
        (rl.prune nm nw).minuteTokenUsage + tok ≤ rl.per_minute_tokens ∧
        ((rl.prune nm nw).day_requests.length : Int) < rl.per_day_requests) :=
      fun h => hfull h.2.2
    have hB : ¬ (¬ ((rl.prune nm nw).minute_requests.length : Int) <
        rl.per_minute_requests ∧ (rl.prune nm nw).minute_requests = []) := by
      rintro ⟨hno, hemp⟩
      apply hno
      rw [hemp]
      simpa using hpm
    unfold RateLimiter.acquireIter
    rw [if_neg hA, if_neg hB, if_neg hfull]
    cases hD : (rl.prune nm nw).day_requests with
    | nil =>
      exfalso
      apply hfull
      rw [hD]
      simpa using hpd
    | cons y ys => rfl
  refine ⟨key t, fun rest => ?_⟩
  unfold RateLimiter.acquire acquireGo
  rw [key (normTokens t)]

/-- Witness for the amended C3: a limiter whose single-entry day window is
full denies at once. -/
theorem c3_daily_denial_amended_witness :
    (⟨1, 5, 1, [], [0], []⟩ : RateLimiter).acquireIter 1 10 10 =
      .denied ((⟨1, 5, 1, [], [0], []⟩ : RateLimiter).prune 10 10) ∧
    (⟨1, 5, 1, [], [0], []⟩ : RateLimiter).acquire 1 [(10, 10)] =
      AcquireOutcome.denied
        ((⟨1, 5, 1, [], [0], []⟩ : RateLimiter).prune 10 10) :=
  ⟨(c3_daily_denial_amended ⟨1, 5, 1, [], [0], []⟩ 1 10 10 (by norm_num)
      (by norm_num)
      (by norm_num [RateLimiter.prune, List.dropWhile])).1,
   (c3_daily_denial_amended ⟨1, 5, 1, [], [0], []⟩ 1 10 10 (by norm_num)
      (by norm_num)
      (by norm_num [RateLimiter.prune, List.dropWhile])).2 []⟩

/-! ## C5: the backoff wait -/

/-- C5: when an iteration is not admitted but the daily check passes, and
each failing minute-level check's window is non-empty (so it has an oldest
entry), the iteration sleeps exactly the largest
`60 − (now − oldest_entry_timestamp)` over the failing minute-level checks,
floored at 0.5 s, leaving the pruned state untouched. -/
theorem c5_backoff_wait (rl : RateLimiter) (t : Int) (nm nw : ℚ)
    (hday : ((rl.prune nm nw).day_requests.length : Int) <
      rl.per_day_requests)
    (hnot : ¬ (((rl.prune nm nw).minute_requests.length : Int) <
        rl.per_minute_requests ∧
      (rl.prune nm nw).minuteTokenUsage + t ≤ rl.per_minute_tokens))
    (hmr : ¬ ((rl.prune nm nw).minute_requests.length : Int) <
        rl.per_minute_requests → (rl.prune nm nw).minute_requests ≠ [])
    (hmt : ¬ ((rl.prune nm nw).minuteTokenUsage + t ≤
        rl.per_minute_tokens) → (rl.prune nm nw).minute_tokens ≠ []) :
    rl.acquireIter t nm nw =
      .sleep (max (pymax 0 (specWaits (rl.prune nm nw) t nm)) (1 / 2))
        (rl.prune nm nw) := by
  have hA : ¬ (((rl.prune nm nw).minute_requests.length : Int) <
      rl.per_minute_requests ∧
      (rl.prune nm nw).minuteTokenUsage + t ≤ rl.per_minute_tokens ∧
      ((rl.prune nm nw).day_requests.length : Int) < rl.per_day_requests) :=
    fun h => hnot ⟨h.1, h.2.1⟩
  have hB : ¬ (¬ ((rl.prune nm nw).minute_requests.length : Int) <
      rl.per_minute_requests ∧ (rl.prune nm nw).minute_requests = []) := by
    rintro ⟨hno, hemp⟩
    exact hmr hno hemp
  unfold RateLimiter.acquireIter
  rw [if_neg hA, if_neg hB, if_pos hday]
  unfold specWaits
  rw [prune_per_minute_requests, prune_per_minute_tokens]
  by_cases hm : ((rl.prune nm nw).minute_requests.length : Int) <
      rl.per_minute_requests
  · have htk : ¬ ((rl.prune nm nw).minuteTokenUsage + t ≤
        rl.per_minute_tokens) := fun h => hnot ⟨hm, h⟩
    obtain ⟨y, ys, hy⟩ := List.exists_cons_of_ne_nil (hmt htk)
    rw [if_pos hm, if_pos hm, if_neg htk, if_neg htk, hy]
    rfl
  · obtain ⟨x, xs, hx⟩ := List.exists_cons_of_ne_nil (hmr hm)
    by_cases htk : (rl.prune nm nw).minuteTokenUsage + t ≤
        rl.per_minute_tokens
    · rw [if_neg hm, if_neg hm, if_pos htk, if_pos htk, hx]
      rfl
    · obtain ⟨y, ys, hy⟩ := List.exists_cons_of_ne_nil (hmt htk)
      rw [if_neg hm, if_neg hm, if_neg htk, if_neg htk, hx, hy]
      rfl

/-- Witness for C5: both minute checks failing at `now = 20` with both
oldest entries at 0 gives a 40-second sleep. -/
theorem c5_backoff_wait_witness :
    (⟨2, 100, 5, [0, 10], [0, 10], [(0, 40), (10, 40)]⟩ :
        RateLimiter).acquireIter 40 20 20 =
      .sleep
        (max (pymax 0 (specWaits
          ((⟨2, 100, 5, [0, 10], [0, 10], [(0, 40), (10, 40)]⟩ :
            RateLimiter).prune 20 20) 40 20)) (1 / 2))
        ((⟨2, 100, 5, [0, 10], [0, 10], [(0, 40), (10, 40)]⟩ :
          RateLimiter).prune 20 20) :=
  c5_backoff_wait ⟨2, 100, 5, [0, 10], [0, 10], [(0, 40), (10, 40)]⟩ 40 20 20
    (by norm_num [RateLimiter.prune, List.dropWhile])
    (by norm_num [RateLimiter.prune, RateLimiter.minuteTokenUsage,
      List.dropWhile])
    (by norm_num [RateLimiter.prune, List.dropWhile]
        exact List.cons_ne_nil _ _)
    (by norm_num [RateLimiter.prune, RateLimiter.minuteTokenUsage,
          List.dropWhile]
        exact List.cons_ne_nil _ _)

/-! ## C10: an oversized request -/

/-- With non-negative recorded token costs and a normalized request
strictly above the per-minute token budget, no iteration of the acquire
loop ever admits, over any schedule. -/
theorem acquireGo_never_admits (tok : Int) :
    ∀ (sched : List (ℚ × ℚ)) (rl : RateLimiter),
      (∀ e ∈ rl.minute_tokens, 0 ≤ e.2) →
      rl.per_minute_tokens < tok →
      ∀ s, acquireGo tok rl sched ≠ .admitted s := by
  intro sched
  induction sched with
  | nil =>
    intro rl _ _ s h
    exact AcquireOutcome.noConfusion h
  | cons p rest ih =>
    obtain ⟨nm, nw⟩ := p
    intro rl hpos hbig s h
    unfold acquireGo at h
    cases hstep : rl.acquireIter tok nm nw with
    | admitted s2 =>
      rw [acquireIter_eq_admitted_iff] at hstep
      have husage : 0 ≤ (rl.prune nm nw).minuteTokenUsage := by
        apply List.sum_nonneg
        intro x hx
        rw [List.mem_map] at hx
        obtain ⟨e, he, rfl⟩ := hx
        exact hpos e ((List.dropWhile_sublist _).subset he)
      have hchk := hstep.1.2.1
      linarith
    | denied s2 =>
      rw [hstep] at h
      exact AcquireOutcome.noConfusion h
    | error s2 =>
      rw [hstep] at h
      exact AcquireOutcome.noConfusion h
    | sleep d s2 =>
      rw [hstep] at h
      have hs2 : s2 = rl.prune nm nw :=
        (acquireIter_carried_state rl tok nm nw s2).1 d hstep
      apply ih s2 (fun e he => ?_) (by rw [hs2]; exact hbig) s h
      rw [hs2] at he
      exact hpos e ((List.dropWhile_sublist _).subset he)

/-- C10: a normalized request exceeding the per-minute token budget is
never admitted, for any schedule of clock readings: the call either daily-
denies, errors, or keeps looping.  And when the (pruned) token window is
empty while the other two checks pass, the failing token check contributes
no wait entry, so the iteration sleeps the default 1.0 s, not a
window-derived wait. -/
theorem c10_oversized_request (rl : RateLimiter) (tok : Int)
    (hpos : ∀ e ∈ rl.minute_tokens, 0 ≤ e.2)
    (hbig : rl.per_minute_tokens < normTokens tok) :
    (∀ (sched : List (ℚ × ℚ)) (s : RateLimiter),
      rl.acquire tok sched ≠ .admitted s) ∧
    (∀ nm nw : ℚ,
      (rl.prune nm nw).minute_tokens = [] →
      ((rl.prune nm nw).minute_requests.length : Int) <
        rl.per_minute_requests →
      ((rl.prune nm nw).day_requests.length : Int) < rl.per_day_requests →
      rl.acquireIter (normTokens tok) nm nw = .sleep 1 (rl.prune nm nw)) := by
  constructor
  · intro sched s
    exact acquireGo_never_admits (normTokens tok) sched rl hpos hbig s
  · intro nm nw hempty hmrOk hdayOk
    have husage : (rl.prune nm nw).minuteTokenUsage = 0 := by
      unfold RateLimiter.minuteTokenUsage
      rw [hempty]
      rfl
    have htok : ¬ ((rl.prune nm nw).minuteTokenUsage + normTokens tok ≤
        rl.per_minute_tokens) := by
      rw [husage]
      omega
    unfold RateLimiter.acquireIter
    rw [if_neg (fun h => htok h.2.1), if_neg (fun h => h.1 hmrOk),
        if_pos hdayOk, if_pos hmrOk, if_neg htok, hempty]
    norm_num [pymax]

/-- Witness for C10 on a fresh limiter with a 5-token budget and a
10-token request. -/
theorem c10_oversized_request_witness :
    ((RateLimiter.mk0 2 5 3).acquire 10 [(0, 0)] ≠
      .admitted (RateLimiter.mk0 2 5 3)) ∧
    (RateLimiter.mk0 2 5 3).acquireIter (normTokens 10) 0 0 =
      .sleep 1 ((RateLimiter.mk0 2 5 3).prune 0 0) :=
  ⟨(c10_oversized_request (RateLimiter.mk0 2 5 3) 10 (by simp [RateLimiter.mk0])
      (by norm_num [normTokens, RateLimiter.mk0])).1 [(0, 0)]
      (RateLimiter.mk0 2 5 3),
   (c10_oversized_request (RateLimiter.mk0 2 5 3) 10 (by simp [RateLimiter.mk0])
      (by norm_num [normTokens, RateLimiter.mk0])).2 0 0 rfl
      (by norm_num [RateLimiter.prune, RateLimiter.mk0])
      (by norm_num [RateLimiter.prune, RateLimiter.mk0])⟩

/-! ## C6: the worked scenario -/

/-- C6: with limits (2 req/min, 100 tokens/min, 5 req/day), two
`acquire(40)` calls are admitted immediately (leaving 80 tokens and 2
requests — the per-minute request limit — in the minute windows), and a
third `acquire(40)` is not admitted at any instant of `[20, 60)` but is
admitted at every instant from 60 on, i.e. once the 60-second window has
rolled past the first admission's timestamp 0. -/
theorem c6_scenario :
    (RateLimiter.mk0 2 100 5).acquire 40 [(0, 0)] =
      .admitted ⟨2, 100, 5, [0], [0], [(0, 40)]⟩ ∧
    (⟨2, 100, 5, [0], [0], [(0, 40)]⟩ : RateLimiter).acquire 40 [(10, 10)] =
      .admitted ⟨2, 100, 5, [0, 10], [0, 10], [(0, 40), (10, 40)]⟩ ∧
    (⟨2, 100, 5, [0, 10], [0, 10], [(0, 40), (10, 40)]⟩ :
      RateLimiter).minuteTokenUsage = 80 ∧
    (⟨2, 100, 5, [0, 10], [0, 10], [(0, 40), (10, 40)]⟩ :
      RateLimiter).minute_requests.length = 2 ∧
    (∀ t : ℚ, 20 ≤ t → t < 60 →
      ¬ isAdmittedStep ((⟨2, 100, 5, [0, 10], [0, 10], [(0, 40), (10, 40)]⟩ :
        RateLimiter).acquireIter 40 t t)) ∧
    (∀ t : ℚ, 60 ≤ t →
      isAdmittedStep ((⟨2, 100, 5, [0, 10], [0, 10], [(0, 40), (10, 40)]⟩ :
        RateLimiter).acquireIter 40 t t)) := by
  refine ⟨?_, ?_, by norm_num [RateLimiter.minuteTokenUsage], rfl, ?_, ?_⟩
  · unfold RateLimiter.acquire acquireGo normTokens RateLimiter.acquireIter
      RateLimiter.prune RateLimiter.minuteTokenUsage
    norm_num [List.dropWhile, RateLimiter.mk0]
  · unfold RateLimiter.acquire acquireGo normTokens RateLimiter.acquireIter
      RateLimiter.prune RateLimiter.minuteTokenUsage
    norm_num [List.dropWhile]
  · intro t h20 h60 hadm
    obtain ⟨s, hs⟩ := hadm
    rw [acquireIter_eq_admitted_iff] at hs
    have hp : ¬ ((0 : ℚ) ≤ t - 60) := by linarith
    have hkeep : ((⟨2, 100, 5, [0, 10], [0, 10], [(0, 40), (10, 40)]⟩ :
        RateLimiter).prune t t).minute_requests = [0, 10] := by
      show List.dropWhile (fun x => decide (x ≤ t - 60)) [0, 10] = [0, 10]
      rw [List.dropWhile_cons, if_neg (by simpa using hp)]
    have hlen := hs.1.1
    rw [hkeep] at hlen
    norm_num at hlen
  · intro t h60
    have hp : (0 : ℚ) ≤ t - 60 := by linarith
    refine ⟨_, (acquireIter_eq_admitted_iff _ 40 t t _).2 ⟨⟨?_, ?_, ?_⟩, rfl⟩⟩
    · have h1 : ((⟨2, 100, 5, [0, 10], [0, 10], [(0, 40), (10, 40)]⟩ :
          RateLimiter).prune t t).minute_requests =
          List.dropWhile (fun x => decide (x ≤ t - 60)) [10] := by
        show List.dropWhile (fun x => decide (x ≤ t - 60)) [0, 10] = _
        rw [List.dropWhile_cons, if_pos (by simpa using hp)]
      rw [h1]
      have h2 := List.Sublist.length_le
        (List.dropWhile_sublist (l := [(10 : ℚ)])
          (fun x => decide (x ≤ t - 60)))
      simp only [List.length_cons, List.length_nil] at h2
      show ((List.dropWhile (fun x => decide (x ≤ t - 60))
        [(10 : ℚ)]).length : Int) < 2
      omega
    · have h1 : ((⟨2, 100, 5, [0, 10], [0, 10], [(0, 40), (10, 40)]⟩ :
          RateLimiter).prune t t).minute_tokens =
          List.dropWhile (fun e : ℚ × Int => decide (e.1 ≤ t - 60))
            [(10, 40)] := by
        show List.dropWhile (fun e : ℚ × Int => decide (e.1 ≤ t - 60))
          [(0, 40), (10, 40)] = _
        rw [List.dropWhile_cons, if_pos (by simpa using hp)]
      unfold RateLimiter.minuteTokenUsage
      rw [h1, List.dropWhile_cons]
      split
      · norm_num [List.dropWhile]
      · norm_num
    · have h3 := List.Sublist.length_le
        (List.dropWhile_sublist (l := [(0 : ℚ), 10])
          (fun x => decide (x ≤ t - 86400)))
      simp only [List.length_cons, List.length_nil] at h3
      show ((List.dropWhile (fun x => decide (x ≤ t - 86400))
        [(0 : ℚ), 10]).length : Int) < 5
      omega

/-- Witness for C6's blocking clauses at the instants 30 and 61. -/
theorem c6_scenario_witness :
    ¬ isAdmittedStep ((⟨2, 100, 5, [0, 10], [0, 10], [(0, 40), (10, 40)]⟩ :
      RateLimiter).acquireIter 40 30 30) ∧
    isAdmittedStep ((⟨2, 100, 5, [0, 10], [0, 10], [(0, 40), (10, 40)]⟩ :
      RateLimiter).acquireIter 40 61 61) :=
  ⟨c6_scenario.2.2.2.2.1 30 (by norm_num) (by norm_num),
   c6_scenario.2.2.2.2.2 61 (by norm_num)⟩

/-! ## C1: the quota is never exceeded -/

/-- Counting entries whose key lies in the half-open span `(a, b]`: when
every listed key is split into a dropped prefix bounded by `thr ≤ a` and a
window shorter than `L`, the in-span count stays below `L`. -/
theorem countP_span_lt {κ : Type} (key : κ → ℚ) (a b thr : ℚ) (L : Int)
    (A : List κ) (P W : List ℚ)
    (hsplit : A.map key = P ++ W) (hP : ∀ x ∈ P, x ≤ thr) (hthr : thr ≤ a)
    (hW : (W.length : Int) < L) :
    (A.countP (fun e => decide (a < key e ∧ key e ≤ b)) : Int) < L := by
  have h1 : A.countP (fun e => decide (a < key e ∧ key e ≤ b)) =
      (A.map key).countP (fun x => decide (a < x ∧ x ≤ b)) := by
    rw [List.countP_map]
    rfl
  rw [h1, hsplit, List.countP_append]
  have hPzero : P.countP (fun x => decide (a < x ∧ x ≤ b)) = 0 := by
    rw [List.countP_eq_zero]
    intro x hx
    simp only [decide_eq_true_eq]
    rintro ⟨hax, -⟩
    exact absurd hax (not_lt.2 ((hP x hx).trans hthr))
  rw [hPzero]
  have hWle := List.countP_le_length
    (fun x => decide (a < x ∧ x ≤ b)) (l := W)
  omega

/-- Summing costs of entries whose key lies in the half-open span `(a, b]`:
when the keyed cost list splits into a dropped prefix bounded by `thr ≤ a`
and a window with non-negative costs, the in-span cost sum is at most the
window's total. -/
theorem sum_span_le {κ : Type} (key : κ → ℚ) (cost : κ → Int) (a b thr : ℚ)
    (A : List κ) (P W : List (ℚ × Int))
    (hsplit : A.map (fun e => (key e, cost e)) = P ++ W)
    (hP : ∀ x ∈ P, x.1 ≤ thr) (hthr : thr ≤ a)
    (hpos : ∀ x ∈ W, 0 ≤ x.2) :
    ((A.filter (fun e => decide (a < key e ∧ key e ≤ b))).map cost).sum ≤
      (W.map Prod.snd).sum := by
  have h1 : (A.filter (fun e => decide (a < key e ∧ key e ≤ b))).map cost =
      ((A.map (fun e => (key e, cost e))).filter
        (fun x => decide (a < x.1 ∧ x.1 ≤ b))).map Prod.snd := by
    rw [List.filter_map, List.map_map]
    rfl
  rw [h1, hsplit, List.filter_append, List.map_append, List.sum_append]
  have hPzero : P.filter (fun x => decide (a < x.1 ∧ x.1 ≤ b)) = [] := by
    rw [List.filter_eq_nil_iff]
    intro x hx
    simp only [decide_eq_true_eq]
    rintro ⟨hax, -⟩
    exact absurd hax (not_lt.2 ((hP x hx).trans hthr))
  rw [hPzero]
  simp only [List.map_nil, List.sum_nil, zero_add]
  apply List.Sublist.sum_le_sum
  · exact List.Sublist.map _ (List.filter_sublist _)
  · intro x hx
    rw [List.mem_map] at hx
    obtain ⟨e, he, rfl⟩ := hx
    exact hpos e he

/-- Pruning at clock readings no earlier than those seen so far preserves
the ledger invariant (the newly dropped entries were expired at the new
readings). -/
theorem LedgerInv.prune_step {pmr pmt pdr : Int} {rl : RateLimiter}
    {A : List Admission} {tm tw : ℚ} (h : LedgerInv pmr pmt pdr rl A tm tw)
    {nm nw : ℚ} (hm : tm ≤ nm) (hw : tw ≤ nw) :
    LedgerInv pmr pmt pdr (rl.prune nm nw) A nm nw := by
  obtain ⟨P1, hP1, hP1b⟩ := h.win_mr
  obtain ⟨P2, hP2, hP2b⟩ := h.win_tok
  obtain ⟨P3, hP3, hP3b⟩ := h.win_day
  refine ⟨h.lim_mr, h.lim_tok, h.lim_day,
    fun e he => (h.hist_nm_le e he).trans hm,
    fun e he => (h.hist_nw_le e he).trans hw,
    h.hist_cost, h.sorted_nm, h.sorted_nw, ?_, ?_, ?_,
    h.bound_mr, h.bound_tok, h.bound_day⟩
  · refine ⟨P1 ++ rl.minute_requests.takeWhile
      (fun t => decide (t ≤ nm - 60)), ?_, ?_⟩
    · show A.map Admission.nm =
        (P1 ++ rl.minute_requests.takeWhile
          (fun t => decide (t ≤ nm - 60))) ++
        rl.minute_requests.dropWhile (fun t => decide (t ≤ nm - 60))
      rw [List.append_assoc, List.takeWhile_append_dropWhile]
      exact hP1
    · intro x hx
      rw [List.mem_append] at hx
      rcases hx with hx | hx
      · linarith [hP1b x hx]
      · have hx2 := List.mem_takeWhile_imp hx
        simp only [decide_eq_true_eq] at hx2
        linarith
  · refine ⟨P2 ++ rl.minute_tokens.takeWhile
      (fun e => decide (e.1 ≤ nm - 60)), ?_, ?_⟩
    · show A.map (fun e => (e.nm, e.cost)) =
        (P2 ++ rl.minute_tokens.takeWhile
          (fun e => decide (e.1 ≤ nm - 60))) ++
        rl.minute_tokens.dropWhile (fun e => decide (e.1 ≤ nm - 60))
      rw [List.append_assoc, List.takeWhile_append_dropWhile]
      exact hP2
    · intro x hx
      rw [List.mem_append] at hx
      rcases hx with hx | hx
      · linarith [hP2b x hx]
      · have hx2 := List.mem_takeWhile_imp hx
        simp only [decide_eq_true_eq] at hx2
        linarith
  · refine ⟨P3 ++ rl.day_requests.takeWhile
      (fun t => decide (t ≤ nw - 86400)), ?_, ?_⟩
    · show A.map Admission.nw =
        (P3 ++ rl.day_requests.takeWhile
          (fun t => decide (t ≤ nw - 86400))) ++
        rl.day_requests.dropWhile (fun t => decide (t ≤ nw - 86400))
      rw [List.append_assoc, List.takeWhile_append_dropWhile]
      exact hP3
    · intro x hx
      rw [List.mem_append] at hx
      rcases hx with hx | hx
      · linarith [hP3b x hx]
      · have hx2 := List.mem_takeWhile_imp hx
        simp only [decide_eq_true_eq] at hx2
        linarith

/-- An admitting iteration (whose three headroom checks passed on the
pruned state) preserves the invariant, with the admission appended to the
history. -/
theorem LedgerInv.admit_step {pmr pmt pdr : Int} {rl : RateLimiter}
    {A : List Admission} {nm nw : ℚ} (h : LedgerInv pmr pmt pdr rl A nm nw)
    {tok : Int} (htok : 1 ≤ tok)
    (hc1 : (rl.minute_requests.length : Int) < pmr)
    (hc2 : rl.minuteTokenUsage + tok ≤ pmt)
    (hc3 : (rl.day_requests.length : Int) < pdr) :
    LedgerInv pmr pmt pdr
      { rl with
        minute_requests := rl.minute_requests ++ [nm]
        day_requests := rl.day_requests ++ [nw]
        minute_tokens := rl.minute_tokens ++ [(nm, tok)] }
      (A ++ [⟨nm, nw, tok⟩]) nm nw := by
  obtain ⟨P1, hP1, hP1b⟩ := h.win_mr
  obtain ⟨P2, hP2, hP2b⟩ := h.win_tok
  obtain ⟨P3, hP3, hP3b⟩ := h.win_day
  have hWpos : ∀ x ∈ rl.minute_tokens, 0 ≤ x.2 := by
    intro x hx
    have hmem : x ∈ A.map (fun e => (e.nm, e.cost)) := by
      rw [hP2]
      exact List.mem_append_right _ hx
    rw [List.mem_map] at hmem
    obtain ⟨e, he, rfl⟩ := hmem
    have := h.hist_cost e he
    omega
  refine ⟨h.lim_mr, h.lim_tok, h.lim_day, ?_, ?_, ?_, ?_, ?_, ?_, ?_, ?_,
    ?_, ?_, ?_⟩
  · intro e he
    rw [List.mem_append] at he
    rcases he with he | he
    · exact h.hist_nm_le e he
    · rw [List.mem_singleton] at he
      rw [he]
  · intro e he
    rw [List.mem_append] at he
    rcases he with he | he
    · exact h.hist_nw_le e he
    · rw [List.mem_singleton] at he
      rw [he]
  · intro e he
    rw [List.mem_append] at he
    rcases he with he | he
    · exact h.hist_cost e he
    · rw [List.mem_singleton] at he
      rw [he]
      exact htok
  · rw [List.map_append, List.pairwise_append]
    refine ⟨h.sorted_nm, by simp, ?_⟩
    intro x hx y hy
    rw [List.mem_map] at hx
    obtain ⟨e, he, rfl⟩ := hx
    simp only [List.map_cons, List.map_nil, List.mem_singleton] at hy
    rw [hy]
    exact h.hist_nm_le e he
  · rw [List.map_append, List.pairwise_append]
    refine ⟨h.sorted_nw, by simp, ?_⟩
    intro x hx y hy
    rw [List.mem_map] at hx
    obtain ⟨e, he, rfl⟩ := hx
    simp only [List.map_cons, List.map_nil, List.mem_singleton] at hy
    rw [hy]
    exact h.hist_nw_le e he
  · refine ⟨P1, ?_, hP1b⟩
    rw [List.map_append, hP1, List.append_assoc]
    rfl
  · refine ⟨P2, ?_, hP2b⟩
    rw [List.map_append, hP2, List.append_assoc]
    rfl
  · refine ⟨P3, ?_, hP3b⟩
    rw [List.map_append, hP3, List.append_assoc]
    rfl
  · intro a
    rw [List.countP_append]
    by_cases hspan : a < nm ∧ nm ≤ a + 60
    · have hone : List.countP
          (fun e => decide (a < e.nm ∧ e.nm ≤ a + 60))
          [(⟨nm, nw, tok⟩ : Admission)] = 1 := by
        simp [List.countP_cons, hspan]
      rw [hone]
      have hlt := countP_span_lt Admission.nm a (a + 60) (nm - 60) pmr A
        P1 rl.minute_requests hP1 hP1b (by linarith [hspan.2]) hc1
      push_cast
      push_cast at hlt
      omega
    · have hzero : List.countP
          (fun e => decide (a < e.nm ∧ e.nm ≤ a + 60))
          [(⟨nm, nw, tok⟩ : Admission)] = 0 := by
        simp [List.countP_cons, hspan]
      rw [hzero]
      simpa using h.bound_mr a
  · intro a
    rw [List.filter_append, List.map_append, List.sum_append]
    by_cases hspan : a < nm ∧ nm ≤ a + 60
    · have hone : ((List.filter
          (fun e => decide (a < e.nm ∧ e.nm ≤ a + 60))
          [(⟨nm, nw, tok⟩ : Admission)]).map Admission.cost).sum = tok := by
        simp [List.filter_cons, hspan]
      rw [hone]
      have hsum := sum_span_le Admission.nm Admission.cost a (a + 60)
        (nm - 60) A P2 rl.minute_tokens hP2 hP2b (by linarith [hspan.2])
        hWpos
      have husage : (rl.minute_tokens.map Prod.snd).sum + tok ≤ pmt := hc2
      linarith
    · have hzero : ((List.filter
          (fun e => decide (a < e.nm ∧ e.nm ≤ a + 60))
          [(⟨nm, nw, tok⟩ : Admission)]).map Admission.cost).sum = 0 := by
        simp [List.filter_cons, hspan]
      rw [hzero]
      simpa using h.bound_tok a
  · intro a
    rw [List.countP_append]
    by_cases hspan : a < nw ∧ nw ≤ a + 86400
    · have hone : List.countP
          (fun e => decide (a < e.nw ∧ e.nw ≤ a + 86400))
          [(⟨nm, nw, tok⟩ : Admission)] = 1 := by
        simp [List.countP_cons, hspan]
      rw [hone]
      have hlt := countP_span_lt Admission.nw a (a + 86400) (nw - 86400) pdr
        A P3 rl.day_requests hP3 hP3b (by linarith [hspan.2]) hc3
      push_cast
      push_cast at hlt
      omega
    · have hzero : List.countP
          (fun e => decide (a < e.nw ∧ e.nw ≤ a + 86400))
          [(⟨nm, nw, tok⟩ : Admission)] = 0 := by
        simp [List.countP_cons, hspan]
      rw [hzero]
      simpa using h.bound_day a

/-- Running any sequence of atomic acquire iterations whose clock readings
are non-decreasing and no earlier than the readings seen so far preserves
the ledger invariant over the accumulated admission history. -/
theorem runAcquires_inv (pmr pmt pdr : Int) :
    ∀ (ops : List (Int × ℚ × ℚ)) (rl : RateLimiter) (A : List Admission)
      (tm tw : ℚ),
      LedgerInv pmr pmt pdr rl A tm tw →
      (∀ o ∈ ops, tm ≤ o.2.1) →
      (∀ o ∈ ops, tw ≤ o.2.2) →
      List.Pairwise (fun a b => a ≤ b) (ops.map (fun o => o.2.1)) →
      List.Pairwise (fun a b => a ≤ b) (ops.map (fun o => o.2.2)) →
      ∃ tm' tw', LedgerInv pmr pmt pdr (runAcquires rl ops).1
        (A ++ (runAcquires rl ops).2) tm' tw' := by
  intro ops
  induction ops with
  | nil =>
    intro rl A tm tw h _ _ _ _
    exact ⟨tm, tw, by simpa [runAcquires] using h⟩
  | cons op rest ih =>
    obtain ⟨t, nm, nw⟩ := op
    intro rl A tm tw h hm hw hpm hpw
    have hmn : tm ≤ nm := hm (t, nm, nw) (List.mem_cons_self _ _)
    have hwn : tw ≤ nw := hw (t, nm, nw) (List.mem_cons_self _ _)
    rw [List.map_cons, List.pairwise_cons] at hpm hpw
    have hrest_m : ∀ o ∈ rest, nm ≤ o.2.1 :=
      fun o ho => hpm.1 _ (List.mem_map_of_mem _ ho)
    have hrest_w : ∀ o ∈ rest, nw ≤ o.2.2 :=
      fun o ho => hpw.1 _ (List.mem_map_of_mem _ ho)
    have hpr : LedgerInv pmr pmt pdr (rl.prune nm nw) A nm nw :=
      h.prune_step hmn hwn
    unfold runAcquires
    cases hstep : rl.acquireIter (normTokens t) nm nw with
    | admitted s =>
      rw [acquireIter_eq_admitted_iff] at hstep
      have hadm := hpr.admit_step (one_le_normTokens t)
        (by rw [← h.lim_mr]; exact hstep.1.1)
        (by rw [← h.lim_tok]; exact hstep.1.2.1)
        (by rw [← h.lim_day]; exact hstep.1.2.2)
      rw [← hstep.2] at hadm
      obtain ⟨tm', tw', hres⟩ := ih s (A ++ [⟨nm, nw, normTokens t⟩]) nm nw
        hadm hrest_m hrest_w hpm.2 hpw.2
      rw [List.append_assoc, List.singleton_append] at hres
      exact ⟨tm', tw', hres⟩
    | denied s =>
      have hs : s = rl.prune nm nw :=
        (acquireIter_carried_state rl (normTokens t) nm nw s).2.1 hstep
      exact ih s A nm nw (hs ▸ hpr) hrest_m hrest_w hpm.2 hpw.2
    | sleep d s =>
      have hs : s = rl.prune nm nw :=
        (acquireIter_carried_state rl (normTokens t) nm nw s).1 d hstep
      exact ih s A nm nw (hs ▸ hpr) hrest_m hrest_w hpm.2 hpw.2
    | error s =>
      have hs : s = rl.prune nm nw :=
        (acquireIter_carried_state rl (normTokens t) nm nw s).2.2 hstep
      exact ih s A nm nw (hs ▸ hpr) hrest_m hrest_w hpm.2 hpw.2

/-- C1: over any sequence of atomic acquire iterations (each one critical
section of a possibly concurrent `acquire` call, so any interleaving is
such a sequence) with non-negative configured limits, non-decreasing
monotonic readings and non-decreasing wall readings, the admissions
recorded from a fresh limiter satisfy all three quotas on every half-open
span: at most `pmr` admissions have their monotonic stamp in `(a, a+60]`,
the admitted token costs stamped in `(a, a+60]` sum to at most `pmt`, and
at most `pdr` admissions have their wall stamp in `(a, a+86400]`. -/
theorem c1_quota_never_exceeded (pmr pmt pdr : Int)
    (ops : List (Int × ℚ × ℚ))
    (hpmr : 0 ≤ pmr) (hpmt : 0 ≤ pmt) (hpdr : 0 ≤ pdr)
    (hnm : List.Pairwise (fun a b => a ≤ b) (ops.map (fun o => o.2.1)))
    (hnw : List.Pairwise (fun a b => a ≤ b) (ops.map (fun o => o.2.2))) :
    ∀ a : ℚ,
      (((runAcquires (RateLimiter.mk0 pmr pmt pdr) ops).2.countP
        (fun e => decide (a < e.nm ∧ e.nm ≤ a + 60)) : Int) ≤ pmr) ∧
      ((((runAcquires (RateLimiter.mk0 pmr pmt pdr) ops).2.filter
        (fun e => decide (a < e.nm ∧ e.nm ≤ a + 60))).map
          Admission.cost).sum ≤ pmt) ∧
      (((runAcquires (RateLimiter.mk0 pmr pmt pdr) ops).2.countP
        (fun e => decide (a < e.nw ∧ e.nw ≤ a + 86400)) : Int) ≤ pdr) := by
  have hbase : ∀ tm tw : ℚ,
      LedgerInv pmr pmt pdr (RateLimiter.mk0 pmr pmt pdr) [] tm tw := by
    intro tm tw
    refine ⟨rfl, rfl, rfl, by simp, by simp, by simp, by simp, by simp,
      ⟨[], by simp [RateLimiter.mk0], by simp⟩,
      ⟨[], by simp [RateLimiter.mk0], by simp⟩,
      ⟨[], by simp [RateLimiter.mk0], by simp⟩, ?_, ?_, ?_⟩
    · intro a
      simpa using hpmr
    · intro a
      simpa using hpmt
    · intro a
      simpa using hpdr
  cases hops : ops with
  | nil =>
    intro a
    refine ⟨?_, ?_, ?_⟩ <;> simp [runAcquires] <;> assumption
  | cons op rest =>
    rw [hops] at hnm hnw
    rw [List.map_cons, List.pairwise_cons] at hnm hnw
    have hm : ∀ o ∈ op :: rest, op.2.1 ≤ o.2.1 := by
      intro o ho
      rw [List.mem_cons] at ho
      rcases ho with rfl | ho
      · exact le_refl _
      · exact hnm.1 _ (List.mem_map_of_mem _ ho)
    have hw : ∀ o ∈ op :: rest, op.2.2 ≤ o.2.2 := by
      intro o ho
      rw [List.mem_cons] at ho
      rcases ho with rfl | ho
      · exact le_refl _
      · exact hnw.1 _ (List.mem_map_of_mem _ ho)
    obtain ⟨tm', tw', hres⟩ := runAcquires_inv pmr pmt pdr (op :: rest)
      (RateLimiter.mk0 pmr pmt pdr) [] op.2.1 op.2.2
      (hbase op.2.1 op.2.2) hm hw
      (by rw [List.map_cons, List.pairwise_cons]; exact hnm)
      (by rw [List.map_cons, List.pairwise_cons]; exact hnw)
    rw [List.nil_append] at hres
    intro a
    exact ⟨hres.bound_mr a, hres.bound_tok a, hres.bound_day a⟩

/-- Witness for C1: limits (1, 10, 2), two iterations at monotonic times
0 and 1; the resulting admission log satisfies all three span bounds at
`a = 0`. -/
theorem c1_quota_never_exceeded_witness :
    (((runAcquires (RateLimiter.mk0 1 10 2) [(5, 0, 0), (5, 1, 1)]).2.countP
      (fun e => decide ((0 : ℚ) < e.nm ∧ e.nm ≤ 0 + 60)) : Int) ≤ 1) ∧
    ((((runAcquires (RateLimiter.mk0 1 10 2)
      [(5, 0, 0), (5, 1, 1)]).2.filter
        (fun e => decide ((0 : ℚ) < e.nm ∧ e.nm ≤ 0 + 60))).map
          Admission.cost).sum ≤ 10) ∧
    (((runAcquires (RateLimiter.mk0 1 10 2) [(5, 0, 0), (5, 1, 1)]).2.countP
      (fun e => decide ((0 : ℚ) < e.nw ∧ e.nw ≤ 0 + 86400)) : Int) ≤ 2) :=
  c1_quota_never_exceeded 1 10 2 [(5, 0, 0), (5, 1, 1)]
    (by norm_num) (by norm_num) (by norm_num)
    (by norm_num [List.pairwise_cons])
    (by norm_num [List.pairwise_cons]) 0
